import Mathlib

/-!
Verification of the BRAD planner/dispatcher core (`BRAD/planner.py`,
`BRAD/geneDatabaseCaller.py`).

The Python string operations are embedded on `List Char`:
`str.strip`, `str.split` (single- and multi-character separators, Python
semantics: empty pieces are kept and the result is never empty),
`str.replace(pat, "")` (removes every non-overlapping occurrence,
scanning left to right), substring containment (`pat in s`), and the
first match of the regex `Prompt: (.*?)\n` (the leftmost occurrence of
`"Prompt: "` that is followed by a later newline; the capture runs up to
that newline, since `.` does not match a newline).

The scanning functions advance by the pattern length after a match; to
keep them structurally recursive (so that the kernel can evaluate them
on concrete inputs) they carry a skip counter consumed one character at
a time.
-/

abbrev Chars := List Char

/-- The whitespace characters stripped by Python `str.strip()`. -/
def pyIsSpace (c : Char) : Bool :=
  c = ' ' || c = '\t' || c = '\n' || c = '\r'

/-- Python `str.strip()`: drop whitespace from both ends. -/
def stripChars (s : Chars) : Chars :=
  ((s.dropWhile pyIsSpace).reverse.dropWhile pyIsSpace).reverse

/-- Worker for `replaceAll`: while the skip counter is positive the scan
is inside an already-matched occurrence and just consumes characters. -/
def replaceAllGo (pat : Chars) : Nat → Chars → Chars
  | _, [] => []
  | k + 1, _ :: rest => replaceAllGo pat k rest
  | 0, c :: rest =>
    if pat ≠ [] ∧ pat.isPrefixOf (c :: rest) then
      replaceAllGo pat (pat.length - 1) rest
    else
      c :: replaceAllGo pat 0 rest

/-- Python `str.replace(pat, "")` for a non-empty `pat`: remove every
non-overlapping occurrence, scanning left to right and continuing after
each removed occurrence. -/
def replaceAll (pat s : Chars) : Chars :=
  replaceAllGo pat 0 s

/-- Python `str.split(sep)` for a one-character separator: splits at every
occurrence, keeps empty pieces, always returns at least one piece. -/
def pySplitChar (sep : Char) : Chars → List Chars
  | [] => [[]]
  | c :: rest =>
    if c = sep then
      [] :: pySplitChar sep rest
    else
      match pySplitChar sep rest with
      | [] => [[c]]
      | h :: t => (c :: h) :: t

/-- Worker for `pySplitStr`, with the same skip-counter device as
`replaceAllGo`. -/
def pySplitStrGo (sep : Chars) : Nat → Chars → List Chars
  | _, [] => [[]]
  | k + 1, _ :: rest => pySplitStrGo sep k rest
  | 0, c :: rest =>
    if sep ≠ [] ∧ sep.isPrefixOf (c :: rest) then
      [] :: pySplitStrGo sep (sep.length - 1) rest
    else
      match pySplitStrGo sep 0 rest with
      | [] => [[c]]
      | h :: t => (c :: h) :: t

/-- Python `str.split(sep)` for a non-empty multi-character separator:
splits at every non-overlapping occurrence, scanning left to right. -/
def pySplitStr (sep s : Chars) : List Chars :=
  pySplitStrGo sep 0 s

/-- Python `pat in s` (substring containment). -/
def containsSub (pat : Chars) : Chars → Bool
  | [] => pat.isEmpty
  | c :: rest => pat.isPrefixOf (c :: rest) || containsSub pat rest

/-- Worker for `countSub`. -/
def countSubGo (pat : Chars) : Nat → Chars → Nat
  | _, [] => 0
  | k + 1, _ :: rest => countSubGo pat k rest
  | 0, c :: rest =>
    if pat ≠ [] ∧ pat.isPrefixOf (c :: rest) then
      countSubGo pat (pat.length - 1) rest + 1
    else
      countSubGo pat 0 rest

/-- Number of non-overlapping occurrences of `pat` in `s`, counted by the
same left-to-right scan that `pySplitStr` uses (so a string with `k` step
markers splits into `k + 1` segments). -/
def countSub (pat s : Chars) : Nat :=
  countSubGo pat 0 s

/-! ## Stage Decomposer (`BRAD/planner.py`, `response2processes`) -/

/-- One planned unit of work (`planner.py` lines 46-51). -/
structure Stage where
  order : Nat
  module : Chars
  prompt : Chars
  description : Chars
deriving Repr, DecidableEq

/-- Failure of `response2processes`: in the source, `prompt[0]` raises
`IndexError` when the regex found no match in stage `stageNum`. -/
inductive PlanErr
  | promptIndex (stageNum : Nat)
deriving Repr, DecidableEq

/-- The fixed module vocabulary (`planner.py` line 32). -/
def modules : List Chars :=
  ["RAG".data, "SCRAPE".data, "DATABASE".data, "CODE".data, "WRITE".data]

/-- `[module for module in modules if module in stage]` (`planner.py` line 37). -/
def findModules (stage : Chars) : List Chars :=
  modules.filter (fun m => containsSub m stage)

/-- The separator of `response.split('**Step ')` (`planner.py` line 33). -/
def stepMarker : Chars := "**Step ".data

/-- The literal `"Prompt: "` of the regex on `planner.py` line 40. -/
def promptMarker : Chars := "Prompt: ".data

/-- First match of `re.findall(r'Prompt: (.*?)\n', stage)`: the leftmost
occurrence of `"Prompt: "` that has a later newline; the capture is the
text up to (not including) that newline (`.` does not match a newline,
and `(.*?)` is non-greedy). -/
def findPromptMatch : Chars → Option Chars
  | [] => none
  | c :: rest =>
    if promptMarker.isPrefixOf (c :: rest) ∧ '\n' ∈ (c :: rest).drop promptMarker.length then
      some (((c :: rest).drop promptMarker.length).takeWhile (fun d => d ≠ '\n'))
    else
      findPromptMatch rest

/-- `'/force ' + module + ' ' + prompt[0]` (`planner.py` line 49). -/
def forceDirective (module p : Chars) : Chars :=
  "/force ".data ++ module ++ ' ' :: p

/-- The enumerated loop of `response2processes` (`planner.py` lines 35-51):
`i` is the running segment index, and a segment that names a module but has
no prompt match raises (`prompt[0]` would be an `IndexError`). -/
def response2processesGo : Nat → List Chars → Except PlanErr (List Stage)
  | _, [] => Except.ok []
  | i, stage :: rest =>
    let found_modules := findModules stage
    if found_modules.isEmpty then
      response2processesGo (i + 1) rest
    else
      match findPromptMatch stage with
      | none => Except.error (PlanErr.promptIndex i)
      | some p =>
        match response2processesGo (i + 1) rest with
        | Except.error e => Except.error e
        | Except.ok procs =>
          Except.ok
            (found_modules.map
              (fun module =>
                { order := i, module := module,
                  prompt := forceDirective module p, description := stage }) ++ procs)

/-- `response2processes` (`planner.py` lines 31-52). -/
def response2processes (response : Chars) : Except PlanErr (List Stage) :=
  response2processesGo 0 (pySplitStr stepMarker response)

/-! ## Response Parser (`BRAD/geneDatabaseCaller.py`, `parse_llm_response`) -/

/-- Parsed Route Decision (`parse_llm_response` output). -/
structure ParsedRoute where
  database : Chars
  genes : List Chars
  load : Chars
deriving Repr, DecidableEq

/-- Failure of `parse_llm_response`: `lines[i]` raises `IndexError` when
index `i` is out of range. -/
inductive ParseErr
  | lineIndex (i : Nat)
deriving Repr, DecidableEq

/-- `parse_llm_response` (`geneDatabaseCaller.py` lines 138-171): strip all
single and double quotes from the whole response, strip outer whitespace,
split into lines, then de-label the first three lines.  `lines[0]` can
never fail (a split is never empty); `lines[1]` and `lines[2]` fail when
fewer than 2 resp. 3 lines are present.  `split(',')[0]` on line 2 cannot
fail and is modelled with `headD`. -/
def parse_llm_response (response : Chars) : Except ParseErr ParsedRoute :=
  let response1 := replaceAll ['\''] response
  let response2 := replaceAll ['"'] response1
  let lines := pySplitChar '\n' (stripChars response2)
  match lines[0]? with
  | none => Except.error (ParseErr.lineIndex 0)
  | some line0 =>
    let database_line := stripChars (replaceAll "database:".data line0)
    match lines[1]? with
    | none => Except.error (ParseErr.lineIndex 1)
    | some line1 =>
      let genes_line := stripChars (replaceAll "genes:".data line1)
      match lines[2]? with
      | none => Except.error (ParseErr.lineIndex 2)
      | some line2 =>
        let code_line := stripChars (replaceAll "load:".data line2)
        Except.ok
          { database := database_line,
            genes := pySplitChar ',' genes_line,
            load := (pySplitChar ',' code_line).headD [] }

deriving instance DecidableEq for Except

/-! ## Dispatcher (`BRAD/geneDatabaseCaller.py`, `geneDBRetriever`)

The langchain oracle (`ConversationChain.predict`), the two database
handlers (`BRAD.enrichr.queryEnrichr`, `BRAD.gene_ontology.geneOntology`)
and the file loader (`utils.loadFromFile`) are external collaborators and
are injected as function parameters.  A handler returns its (possibly
partially) mutated Session State together with `none` on normal return or
`some e` when it raises an exception with text `e` — on a raise, the
mutations it already committed to the shared state persist. -/

/-- One structured entry of `chatstatus['process']['steps']`. -/
inductive LogEntry
  | llmCall (input : Chars) (output : Chars) (parsedOutput : ParsedRoute) (purpose : Chars)
  | errorMessage (message : Chars) (info : Chars)
deriving Repr, DecidableEq

/-- The `chatstatus['process']` mapping: `steps` and `database-function`
are the keys written by the Dispatcher, `type` and `stages` the keys of
the fresh mapping the Planner stores. -/
structure ProcessLog where
  steps : List LogEntry
  databaseFunction : Option Chars
  ptype : Option Chars
  stages : Option (List Stage)
deriving Repr, DecidableEq

/-- Session State (the `chatstatus` dictionary): `debug` is
`config['debug']` and `maxSearchTerms` is
`config['DATABASE']['max_search_terms']`. -/
structure ChatStatus where
  prompt : Chars
  debug : Bool
  maxSearchTerms : Nat
  process : ProcessLog
  planned : List Stage
  output : Chars
deriving Repr, DecidableEq

/-- A route handler: `handle(sessionState, entityList)`; the second
component is `some e` when the handler raises an exception with text `e`. -/
abbrev DBHandler := ChatStatus → List Chars → ChatStatus × Option Chars

/-- `utils.loadFromFile`: `load(sessionState) -> (sessionState', entityList)`. -/
abbrev FileLoader := ChatStatus → ChatStatus × List Chars

/-- Modelled from the spec: `log.llmCallLog` is not under `src/`; per §6
the log sink receives one structured entry per oracle call containing the
prompt, raw output, parsed output, and a purpose label. -/
def llmCallLog (input output : Chars) (parsedOutput : ParsedRoute) (purpose : Chars) : LogEntry :=
  LogEntry.llmCall input output parsedOutput purpose

/-- The append of `geneDBRetriever` lines 96-105: one entry for the oracle
call, tagged `'Select database'`, appended to `process['steps']`. -/
def logSelectDatabaseCall (query raw : Chars) (parsed : ParsedRoute) (cs : ChatStatus) :
    ChatStatus :=
  { cs with process :=
      { cs.process with
        steps := cs.process.steps ++ [llmCallLog query raw parsed "Select database".data] } }

/-- Modelled from the spec: `utils.word_similarity` is not under `src/`.
Per §4.2 any deterministic, symmetric lexical similarity that scores
identical strings maximally is acceptable; we use the SequenceMatcher-style
ratio `2 * |LCS(a, b)| / (|a| + |b|)`.  `lcsLenFuel` carries fuel
`|a| + |b|` so that the recursion is structural. -/
def lcsLenFuel : Nat → Chars → Chars → Nat
  | 0, _, _ => 0
  | _ + 1, [], _ => 0
  | _ + 1, _ :: _, [] => 0
  | fuel + 1, a :: as, b :: bs =>
    if a = b then lcsLenFuel fuel as bs + 1
    else max (lcsLenFuel fuel (a :: as) bs) (lcsLenFuel fuel as (b :: bs))

/-- Length of a longest common subsequence. -/
def lcsLen (a b : Chars) : Nat :=
  lcsLenFuel (a.length + b.length) a b

/-- Modelled from the spec: `utils.word_similarity` (see `lcsLenFuel`). -/
def word_similarity (a b : Chars) : ℚ :=
  mkRat (2 * lcsLen a b) (a.length + b.length)

/-- `geneDBRetriever` lines 109-114: `ENRICHR` is chosen only on a
strictly greater similarity, otherwise `GENEONTOLOGY`. -/
def selectDatabase (dbField : Chars) : Chars :=
  if word_similarity dbField "ENRICHR".data > word_similarity dbField "GENEONTOLOGY".data then
    "ENRICHR".data
  else
    "GENEONTOLOGY".data

/-- `database_functions[database]` (`geneDBRetriever` lines 61-64, 116). -/
def handlerFor (queryEnrichr geneOntology : DBHandler) (database : Chars) : DBHandler :=
  if database = "ENRICHR".data then queryEnrichr else geneOntology

/-- `chatstatus['process']['database-function'] = dbCaller` (line 117),
recorded by route name. -/
def setDatabaseFunction (database : Chars) (cs : ChatStatus) : ChatStatus :=
  { cs with process := { cs.process with databaseFunction := some database } }

/-- `geneDBRetriever` lines 119-123: load the Entity List from a file when
the parsed decision says `load == 'True'`, else take the parsed genes. -/
def resolveGeneList (loadFromFile : FileLoader) (parsed : ParsedRoute) (cs : ChatStatus) :
    ChatStatus × List Chars :=
  if parsed.load = "True".data then loadFromFile cs else (cs, parsed.genes)

/-- `geneDBRetriever` lines 125-126: truncate to at most
`config['DATABASE']['max_search_terms']` entries. -/
def truncateGeneList (maxTerms : Nat) (geneList : List Chars) : List Chars :=
  if geneList.length > maxTerms then geneList.take maxTerms else geneList

/-- Steps 3-7 of the Dispatcher (lines 96-126): log the oracle call,
resolve the route, record it, resolve and truncate the Entity List.
Returns the Session State and the Entity List the handler is invoked on. -/
def dispatchSetup (query raw : Chars) (parsed : ParsedRoute) (loadFromFile : FileLoader)
    (cs : ChatStatus) : ChatStatus × List Chars :=
  let cs1 := logSelectDatabaseCall query raw parsed cs
  let cs2 := setDatabaseFunction (selectDatabase parsed.database) cs1
  let loaded := resolveGeneList loadFromFile parsed cs2
  (loaded.1, truncateGeneList loaded.1.maxSearchTerms loaded.2)

/-- The f-string of `geneDBRetriever` line 134. -/
def errMsgPreamble : Chars := "Error occurred while searching database: ".data

/-- Modelled from the spec: `log.errorLog` is not under `src/`; per §4.4
step 9 and §6 the formatted message is recorded as one structured error
entry in the append-only log. -/
def errorLog (message info : Chars) (cs : ChatStatus) : ChatStatus :=
  { cs with process :=
      { cs.process with steps := cs.process.steps ++ [LogEntry.errorMessage message info] } }

/-- `geneDBRetriever` (`geneDatabaseCaller.py` lines 37-136).  A parse
failure propagates (`Except.error`); an exception `e` raised by the
resolved handler is caught, formatted and logged, and the state as last
mutated is returned. -/
def geneDBRetriever (oracle : Chars → Chars) (queryEnrichr geneOntology : DBHandler)
    (loadFromFile : FileLoader) (chatstatus : ChatStatus) : Except ParseErr ChatStatus :=
  let query := chatstatus.prompt
  let chainResponse := oracle query
  match parse_llm_response chainResponse with
  | Except.error e => Except.error e
  | Except.ok response =>
    let setup := dispatchSetup query chainResponse response loadFromFile chatstatus
    match handlerFor queryEnrichr geneOntology (selectDatabase response.database)
        setup.1 setup.2 with
    | (cs, none) => Except.ok cs
    | (cs, some e) =>
      Except.ok (errorLog (errMsgPreamble ++ e) "geneDatabaseCaller.geneDBRetriever".data cs)

/-! ## Planner (`BRAD/planner.py`, `planner`) -/

/-- `planner` (`planner.py` lines 10-29): one oracle call, two appended
blank lines, decomposition, then `chatstatus['planned'] = processes` and
`chatstatus['process'] = {'type': 'PLANNER', 'stages': processes}` (a
fresh mapping replacing the previous one).  A decomposition failure
propagates. -/
def planner (oracle : Chars → Chars) (cs : ChatStatus) : Except PlanErr ChatStatus :=
  let response := oracle cs.prompt ++ "\n\n".data
  match response2processes response with
  | Except.error e => Except.error e
  | Except.ok processes =>
    Except.ok
      { cs with
        planned := processes,
        process :=
          { steps := [], databaseFunction := none,
            ptype := some "PLANNER".data, stages := some processes } }

/-! ## Concrete fixtures used by the scenario theorems and witnesses -/

/-- The planning response of the §8 scenario (claim C3). -/
def demoPlanResponse : Chars :=
  "**Step 0** ... RAG ... Prompt: find genes\n\n**Step 1** ... WRITE ... Prompt: summarize\n\n".data

/-- A fixed oracle used by concrete dispatcher runs. -/
def wOracle : Chars → Chars := fun _ => "database: ENRICHR\ngenes: TP53\nload: False".data

/-- A handler that always raises `ValueError("timeout")`-style, with
exception text `timeout`, committing no mutation of its own. -/
def wRaise : DBHandler := fun cs _ => (cs, some "timeout".data)

/-- A handler that returns normally without mutating the state. -/
def wOk : DBHandler := fun cs _ => (cs, none)

/-- A file loader that loads nothing and does not mutate the state. -/
def wLoader : FileLoader := fun cs => (cs, [])

/-- A small initial Session State. -/
def wState : ChatStatus :=
  { prompt := "find genes".data, debug := false, maxSearchTerms := 10,
    process := { steps := [], databaseFunction := none, ptype := none, stages := none },
    planned := [], output := [] }

/-- The Parsed Route Decision produced by `wOracle`'s fixed answer. -/
def wParsed : ParsedRoute :=
  { database := "ENRICHR".data, genes := ["TP53".data], load := "False".data }

/-- A route handler that only appends to `process['steps']` (it never
removes or replaces recorded entries), whether it returns or raises. -/
def HandlerAppendOnly (handler : DBHandler) : Prop :=
  ∀ cs geneList, cs.process.steps <+: (handler cs geneList).1.process.steps

/-- A file loader that only appends to `process['steps']`. -/
def LoaderAppendOnly (loadFromFile : FileLoader) : Prop :=
  ∀ cs, cs.process.steps <+: (loadFromFile cs).1.process.steps

/-- The Session State left by the `wOracle`/`wOk`/`wLoader` dispatcher
run. -/
def wResult : ChatStatus :=
  (dispatchSetup wState.prompt (wOracle wState.prompt) wParsed wLoader wState).1

/-- Python `','.join(genes)`. -/
def joinComma : List Chars → Chars
  | [] => []
  | [g] => g
  | g :: g2 :: gs => g ++ ',' :: joinComma (g2 :: gs)

/-- The 3-line re-join of §8's round-trip property:
`"database: " + database`, `"genes: " + ','.join(genes)`,
`"load: " + load`, newline-separated. -/
def rejoinResponse (database : Chars) (genes : List Chars) (load : Chars) : Chars :=
  ("database: ".data ++ database)
    ++ '\n' :: (("genes: ".data ++ joinComma genes)
      ++ '\n' :: ("load: ".data ++ load))

/-! ## Helper lemmas -/

/-- A non-empty pattern is a substring of itself followed by anything. -/
theorem containsSub_append_left (pat x : Chars) (h : pat ≠ []) :
    containsSub pat (pat ++ x) = true := by
  match pat with
  | [] => exact absurd rfl h
  | c :: rest =>
    show containsSub (c :: rest) (c :: (rest ++ x)) = true
    unfold containsSub
    rw [Bool.or_eq_true]
    left
    rw [List.isPrefixOf_iff_prefix]
    exact ⟨x, by simp⟩

/-! ## Claim theorems -/

/-- C1: if the resolved route handler raises an exception `e` when the
Dispatcher invokes it, the exception is caught at the Dispatcher boundary
(the turn returns `Except.ok`, a parse failure being the only propagating
outcome), exactly one error entry whose message is
`'Error occurred while searching database: '` followed by the exception
text is appended to the log, and the Session State as last mutated by the
handler (with all partial effects of the earlier steps) is returned. -/
theorem dispatcher_catches_handler_error (oracle : Chars → Chars)
    (queryEnrichr geneOntology : DBHandler)
    (loadFromFile : FileLoader) (cs : ChatStatus) (parsed : ParsedRoute)
    (cs1 : ChatStatus) (e : Chars)
    (hparse : parse_llm_response (oracle cs.prompt) = Except.ok parsed)
    (hraise : handlerFor queryEnrichr geneOntology (selectDatabase parsed.database)
        (dispatchSetup cs.prompt (oracle cs.prompt) parsed loadFromFile cs).1
        (dispatchSetup cs.prompt (oracle cs.prompt) parsed loadFromFile cs).2
        = (cs1, some e)) :
    geneDBRetriever oracle queryEnrichr geneOntology loadFromFile cs
        = Except.ok (errorLog (errMsgPreamble ++ e)
            "geneDatabaseCaller.geneDBRetriever".data cs1)
      ∧ (errorLog (errMsgPreamble ++ e)
            "geneDatabaseCaller.geneDBRetriever".data cs1).process.steps
          = cs1.process.steps
            ++ [LogEntry.errorMessage (errMsgPreamble ++ e)
                  "geneDatabaseCaller.geneDBRetriever".data]
      ∧ containsSub errMsgPreamble (errMsgPreamble ++ e) = true := by
  refine ⟨?_, rfl, containsSub_append_left _ _ (by decide)⟩
  unfold geneDBRetriever
  simp only [hparse, hraise]

/-- C1 witness: with an oracle answering the ENRICHR scenario and a
handler raising with exception text `timeout`, the Dispatcher returns the
mutated Session State with the formatted error entry logged. -/
theorem dispatcher_catches_handler_error_witness :
    parse_llm_response (wOracle wState.prompt) = Except.ok wParsed
    ∧ handlerFor wRaise wRaise (selectDatabase wParsed.database)
        (dispatchSetup wState.prompt (wOracle wState.prompt) wParsed wLoader wState).1
        (dispatchSetup wState.prompt (wOracle wState.prompt) wParsed wLoader wState).2
      = ((dispatchSetup wState.prompt (wOracle wState.prompt) wParsed wLoader wState).1,
         some "timeout".data)
    ∧ geneDBRetriever wOracle wRaise wRaise wLoader wState
      = Except.ok (errorLog (errMsgPreamble ++ "timeout".data)
          "geneDatabaseCaller.geneDBRetriever".data
          (dispatchSetup wState.prompt (wOracle wState.prompt) wParsed wLoader wState).1) :=
  ⟨by decide, by decide,
   (dispatcher_catches_handler_error wOracle wRaise wRaise wLoader wState wParsed
      (dispatchSetup wState.prompt (wOracle wState.prompt) wParsed wLoader wState).1
      "timeout".data (by decide) (by decide)).1⟩

/-- C2: the Matcher picks the candidate with the strictly higher
similarity score; an input equal to a candidate selects that candidate;
and on a tie the second-listed candidate GENEONTOLOGY is selected because
the source compares with strict greater-than against ENRICHR's score. -/
theorem selectDatabase_spec (s : Chars) :
    (word_similarity s "ENRICHR".data > word_similarity s "GENEONTOLOGY".data →
        selectDatabase s = "ENRICHR".data) ∧
    (word_similarity s "GENEONTOLOGY".data > word_similarity s "ENRICHR".data →
        selectDatabase s = "GENEONTOLOGY".data) ∧
    (word_similarity s "ENRICHR".data = word_similarity s "GENEONTOLOGY".data →
        selectDatabase s = "GENEONTOLOGY".data) ∧
    selectDatabase "ENRICHR".data = "ENRICHR".data ∧
    selectDatabase "GENEONTOLOGY".data = "GENEONTOLOGY".data := by
  refine ⟨?_, ?_, ?_, by decide, by decide⟩
  · intro h
    unfold selectDatabase
    rw [if_pos h]
  · intro h
    unfold selectDatabase
    rw [if_neg (not_lt.mpr (le_of_lt h))]
  · intro h
    unfold selectDatabase
    rw [if_neg (not_lt.mpr (le_of_eq h))]

/-- C2 witness: on input `GENEONTOLOGY` the second candidate scores
strictly higher and is selected. -/
theorem selectDatabase_spec_witness :
    word_similarity "GENEONTOLOGY".data "GENEONTOLOGY".data
        > word_similarity "GENEONTOLOGY".data "ENRICHR".data
      ∧ selectDatabase "GENEONTOLOGY".data = "GENEONTOLOGY".data :=
  ⟨by decide, (selectDatabase_spec "GENEONTOLOGY".data).2.1 (by decide)⟩

/-- C3 counterexample: on the §8 scenario response the Stage Decomposer
emits two records with `order` values 1 and 2 — not 0 and 1 as the claim
states — because `split('**Step ')` yields an empty preamble segment at
index 0 that is skipped but still consumes an index. -/
theorem response2processes_demo_orders :
    (response2processes demoPlanResponse).map (fun procs => procs.map Stage.order)
      = Except.ok [1, 2] := by decide

/-- C3 (amended): on the scenario response the Stage Decomposer returns
exactly two Stage records, with order 1, module RAG, prompt
`/force RAG find genes`, and order 2, module WRITE, prompt
`/force WRITE summarize`. -/
theorem response2processes_demo :
    response2processes demoPlanResponse
      = Except.ok
          [{ order := 1, module := "RAG".data, prompt := "/force RAG find genes".data,
             description := "0** ... RAG ... Prompt: find genes\n\n".data },
           { order := 2, module := "WRITE".data, prompt := "/force WRITE summarize".data,
             description := "1** ... WRITE ... Prompt: summarize\n\n".data }] := by decide

/-- C6: truncation of the Entity List yields exactly
`min (original length) maxSearchTerms` entries and is a prefix of the
original list (original order preserved, only the tail dropped), and it
is a total function (no error). -/
theorem truncateGeneList_spec (geneList : List Chars) (maxTerms : Nat) :
    (truncateGeneList maxTerms geneList).length = min geneList.length maxTerms ∧
    truncateGeneList maxTerms geneList <+: geneList := by
  unfold truncateGeneList
  split
  · refine ⟨?_, geneList.take_prefix maxTerms⟩
    simp only [List.length_take]
    omega
  · exact ⟨by omega, List.prefix_refl _⟩

/-- C7: an oracle response that, after quote stripping and whitespace
stripping, has fewer than 3 lines makes the Response Parser fail with a
propagating error — it never returns a defaulted Parsed Route Decision. -/
theorem parse_fails_on_few_lines (response : Chars)
    (h : (pySplitChar '\n'
        (stripChars (replaceAll ['"'] (replaceAll ['\''] response)))).length < 3) :
    ∃ e, parse_llm_response response = Except.error e := by
  unfold parse_llm_response
  have h2 : (pySplitChar '\n'
      (stripChars (replaceAll ['"'] (replaceAll ['\''] response))))[2]? = none :=
    List.getElem?_eq_none (by omega)
  rcases h0 : (pySplitChar '\n'
      (stripChars (replaceAll ['"'] (replaceAll ['\''] response))))[0]? with _ | line0
  · exact ⟨ParseErr.lineIndex 0, by simp [h0]⟩
  · rcases h1 : (pySplitChar '\n'
        (stripChars (replaceAll ['"'] (replaceAll ['\''] response))))[1]? with _ | line1
    · exact ⟨ParseErr.lineIndex 1, by simp [h0, h1]⟩
    · exact ⟨ParseErr.lineIndex 2, by simp [h0, h1, h2]⟩

/-- C7 witness: a one-line response produces a parse error. -/
theorem parse_fails_on_few_lines_witness :
    (pySplitChar '\n' (stripChars (replaceAll ['"']
        (replaceAll ['\''] "database: ENRICHR".data)))).length < 3
    ∧ ∃ e, parse_llm_response "database: ENRICHR".data = Except.error e :=
  ⟨by decide, parse_fails_on_few_lines "database: ENRICHR".data (by decide)⟩


/-- A Python split never returns an empty list of pieces. -/
theorem pySplitStrGo_ne_nil (sep : Chars) (k : Nat) (s : Chars) :
    pySplitStrGo sep k s ≠ [] := by
  induction s generalizing k with
  | nil => cases k <;> simp [pySplitStrGo]
  | cons c rest ih =>
    match k with
    | k' + 1 => simpa only [pySplitStrGo] using ih k'
    | 0 =>
      simp only [pySplitStrGo]
      split
      · simp
      · split <;> simp

/-- A split at `k` separator occurrences has `k + 1` pieces. -/
theorem pySplitStrGo_length (sep : Chars) (k : Nat) (s : Chars) :
    (pySplitStrGo sep k s).length = countSubGo sep k s + 1 := by
  induction s generalizing k with
  | nil => cases k <;> rfl
  | cons c rest ih =>
    match k with
    | k' + 1 => simpa only [pySplitStrGo, countSubGo] using ih k'
    | 0 =>
      simp only [pySplitStrGo, countSubGo]
      split
      · simp only [List.length_cons]
        rw [ih (sep.length - 1)]
      · split
        · exact absurd (by assumption) (pySplitStrGo_ne_nil sep 0 rest)
        · next h' t hgo =>
            have := ih 0
            rw [hgo] at this
            simpa using this

/-- A constant list is sorted. -/
theorem sorted_const_map (l : List Chars) (i : Nat) :
    List.Sorted (· ≤ ·) (l.map (fun _ => i)) := by
  induction l with
  | nil => simp
  | cons a l ih =>
    rw [List.map_cons, List.sorted_cons]
    exact ⟨fun b hb => by simp at hb; omega, ih⟩

/-- Loop invariant of the Stage Decomposer: starting at segment index `i`
with every module-naming segment containing a prompt match, the loop
succeeds, emits one Stage per `(segment, found module)` pair, with order
values in `[i, i + number of segments)`, non-decreasing in emission
order, and only for segments that name a module. -/
theorem response2processesGo_ok_spec (segs : List Chars) (i : Nat)
    (h : ∀ seg ∈ segs, findModules seg ≠ [] → (findPromptMatch seg).isSome) :
    ∃ procs, response2processesGo i segs = Except.ok procs ∧
      procs.length = (segs.map (fun seg => (findModules seg).length)).sum ∧
      (∀ s ∈ procs, i ≤ s.order ∧ s.order < i + segs.length) ∧
      List.Sorted (· ≤ ·) (procs.map Stage.order) ∧
      (∀ s ∈ procs, findModules (segs.getD (s.order - i) []) ≠ []) := by
  induction segs generalizing i with
  | nil => exact ⟨[], rfl, by simp, by simp, by simp, by simp⟩
  | cons stage rest ih =>
    have hrest : ∀ seg ∈ rest, findModules seg ≠ [] → (findPromptMatch seg).isSome :=
      fun seg hs => h seg (List.mem_cons_of_mem _ hs)
    obtain ⟨procs, hgo, hlen, hbound, hsort, hsegs⟩ := ih (i + 1) hrest
    by_cases hempty : (findModules stage).isEmpty = true
    · have hfm : findModules stage = [] := List.isEmpty_iff.mp hempty
      refine ⟨procs, ?_, ?_, ?_, hsort, ?_⟩
      · simp only [response2processesGo]
        rw [if_pos hempty]
        exact hgo
      · simp [hfm, hlen]
      · intro s hs
        have := hbound s hs
        simp only [List.length_cons]
        omega
      · intro s hs
        have hb := hbound s hs
        have heq : s.order - i = (s.order - (i + 1)) + 1 := by omega
        rw [heq, List.getD_cons_succ]
        exact hsegs s hs
    · have hmod : findModules stage ≠ [] := by simpa [List.isEmpty_iff] using hempty
      have hsome := h stage (List.mem_cons_self _ _) hmod
      rcases hpm : findPromptMatch stage with _ | p
      · rw [hpm] at hsome; simp at hsome
      · refine ⟨(findModules stage).map
            (fun module => { order := i, module := module,
                             prompt := forceDirective module p, description := stage }) ++ procs,
          ?_, ?_, ?_, ?_, ?_⟩
        · simp only [response2processesGo]
          rw [if_neg hempty, hpm, hgo]
        · simp [hlen]
        · intro s hs
          rcases List.mem_append.mp hs with hnew | hold
          · obtain ⟨m, _, rfl⟩ := List.mem_map.mp hnew
            simp only [List.length_cons]
            omega
          · have := hbound s hold
            simp only [List.length_cons]
            omega
        · rw [List.map_append]
          refine List.pairwise_append.mpr ⟨?_, hsort, ?_⟩
          · rw [List.map_map]
            exact sorted_const_map _ i
          · intro a ha b hb
            obtain ⟨s1, hs1, rfl⟩ := List.mem_map.mp ha
            obtain ⟨m, _, rfl⟩ := List.mem_map.mp hs1
            obtain ⟨s2, hs2, rfl⟩ := List.mem_map.mp hb
            have := hbound s2 hs2
            show i ≤ s2.order
            omega
        · intro s hs
          rcases List.mem_append.mp hs with hnew | hold
          · obtain ⟨m, _, rfl⟩ := List.mem_map.mp hnew
            simpa using hmod
          · have hb := hbound s hold
            have heq : s.order - i = (s.order - (i + 1)) + 1 := by omega
            rw [heq, List.getD_cons_succ]
            exact hsegs s hold

/-- C4: for a planning response whose module-naming segments all contain
a `Prompt: ` marker followed by a newline, the Stage Decomposer returns
exactly one Stage per module mention summed over all segments, every
order lies in `{0, ..., k}` for `k` step markers, the order values are
monotonically non-decreasing in emission order, and a segment (in
particular the preamble) that names no module contributes no Stage. -/
theorem decomposer_counts_and_orders (response : Chars)
    (h : ∀ seg ∈ pySplitStr stepMarker response,
        findModules seg ≠ [] → (findPromptMatch seg).isSome) :
    ∃ procs, response2processes response = Except.ok procs ∧
      procs.length
        = ((pySplitStr stepMarker response).map (fun seg => (findModules seg).length)).sum ∧
      (∀ s ∈ procs, s.order ≤ countSub stepMarker response) ∧
      List.Sorted (· ≤ ·) (procs.map Stage.order) ∧
      (∀ s ∈ procs, findModules ((pySplitStr stepMarker response).getD s.order []) ≠ []) := by
  obtain ⟨procs, hgo, hlen, hbound, hsort, hsegs⟩ := response2processesGo_ok_spec _ 0 h
  refine ⟨procs, hgo, hlen, ?_, hsort, by simpa using hsegs⟩
  intro s hs
  have hb := hbound s hs
  have hk : (pySplitStr stepMarker response).length = countSub stepMarker response + 1 :=
    pySplitStrGo_length stepMarker 0 response
  omega

/-- C4 witness: the scenario plan has 2 step markers, 3 segments and 2
module mentions, and the hypothesis and conclusion hold on it. -/
theorem decomposer_counts_and_orders_witness :
    (∀ seg ∈ pySplitStr stepMarker demoPlanResponse,
        findModules seg ≠ [] → (findPromptMatch seg).isSome)
    ∧ (∃ procs, response2processes demoPlanResponse = Except.ok procs ∧
        procs.length
          = ((pySplitStr stepMarker demoPlanResponse).map
              (fun seg => (findModules seg).length)).sum ∧
        (∀ s ∈ procs, s.order ≤ countSub stepMarker demoPlanResponse) ∧
        List.Sorted (· ≤ ·) (procs.map Stage.order) ∧
        (∀ s ∈ procs,
          findModules ((pySplitStr stepMarker demoPlanResponse).getD s.order []) ≠ [])) :=
  ⟨by decide, decomposer_counts_and_orders demoPlanResponse (by decide)⟩


/-- A successful Stage Decomposer run means every segment that names a
module had a prompt match. -/
theorem response2processesGo_ok_prompts (segs : List Chars) (i : Nat) (procs : List Stage)
    (h : response2processesGo i segs = Except.ok procs) :
    ∀ seg ∈ segs, findModules seg ≠ [] → (findPromptMatch seg).isSome := by
  induction segs generalizing i procs with
  | nil => intro seg hseg; simp at hseg
  | cons stage rest ih =>
    intro seg hseg hmod
    simp only [response2processesGo] at h
    rcases List.mem_cons.mp hseg with rfl | hseg'
    · rw [if_neg (by simpa [List.isEmpty_iff] using hmod)] at h
      rcases hpm : findPromptMatch seg with _ | p
      · rw [hpm] at h; simp at h
      · simp [hpm]
    · by_cases hempty : (findModules stage).isEmpty = true
      · rw [if_pos hempty] at h
        exact ih (i + 1) procs h seg hseg' hmod
      · rw [if_neg hempty] at h
        rcases hpm : findPromptMatch stage with _ | p
        · rw [hpm] at h; simp at h
        · rw [hpm] at h
          rcases hgo : response2processesGo (i + 1) rest with e | procs'
          · rw [hgo] at h; simp at h
          · exact ih (i + 1) procs' hgo seg hseg' hmod

/-- C8: a planning-response segment that names at least one known module
but contains no `Prompt: ` marker followed by a newline makes the Stage
Decomposer raise an error (the `IndexError` of `prompt[0]`) instead of
producing a Stage with an empty or defaulted prompt. -/
theorem decomposer_errors_on_missing_prompt (response seg : Chars)
    (hseg : seg ∈ pySplitStr stepMarker response)
    (hmod : findModules seg ≠ [])
    (hnone : findPromptMatch seg = none) :
    ∃ e, response2processes response = Except.error e := by
  rcases hr : response2processes response with e | procs
  · exact ⟨e, rfl⟩
  · exfalso
    unfold response2processes at hr
    have := response2processesGo_ok_prompts _ 0 procs hr seg hseg hmod
    rw [hnone] at this
    simp at this

/-- C8 witness: a one-step plan naming RAG with no prompt marker makes
the decomposition fail. -/
theorem decomposer_errors_witness :
    "1** use RAG now".data ∈ pySplitStr stepMarker "**Step 1** use RAG now".data
    ∧ findModules "1** use RAG now".data ≠ []
    ∧ findPromptMatch "1** use RAG now".data = none
    ∧ ∃ e, response2processes "**Step 1** use RAG now".data = Except.error e :=
  ⟨by decide, by decide, by decide,
   decomposer_errors_on_missing_prompt "**Step 1** use RAG now".data "1** use RAG now".data
     (by decide) (by decide) (by decide)⟩


/-- C9: within one turn the process log only accumulates entries.  For a
dispatcher turn whose injected collaborators only append, the steps list
recorded at the start of the turn is a prefix of the final one (nothing
recorded is replaced or removed), with exactly one entry appended for the
single oracle call; and a planner turn keeps the stages entry it recorded
until the turn ends. -/
theorem process_log_append_only :
    (∀ (oracle : Chars → Chars) (queryEnrichr geneOntology : DBHandler)
        (loadFromFile : FileLoader) (cs res : ChatStatus),
      HandlerAppendOnly queryEnrichr → HandlerAppendOnly geneOntology →
      LoaderAppendOnly loadFromFile →
      geneDBRetriever oracle queryEnrichr geneOntology loadFromFile cs = Except.ok res →
      cs.process.steps <+: res.process.steps)
    ∧ (∀ (query raw : Chars) (parsed : ParsedRoute) (cs : ChatStatus),
        (logSelectDatabaseCall query raw parsed cs).process.steps
          = cs.process.steps ++ [llmCallLog query raw parsed "Select database".data])
    ∧ (∀ (oracle : Chars → Chars) (cs res : ChatStatus),
        planner oracle cs = Except.ok res → res.process.stages = some res.planned) := by
  refine ⟨?_, fun _ _ _ _ => rfl, ?_⟩
  · intro oracle qE gO lff cs res hqE hgO hlff hok
    simp only [geneDBRetriever] at hok
    rcases hp : parse_llm_response (oracle cs.prompt) with e | parsed
    · rw [hp] at hok
      simp at hok
    · rw [hp] at hok
      dsimp only at hok
      have hpre1 : cs.process.steps <+:
          (dispatchSetup cs.prompt (oracle cs.prompt) parsed lff cs).1.process.steps := by
        unfold dispatchSetup resolveGeneList
        split
        · refine List.IsPrefix.trans ?_ (hlff _)
          simp [setDatabaseFunction, logSelectDatabaseCall]
        · simp [setDatabaseFunction, logSelectDatabaseCall]
      have hhandler : HandlerAppendOnly
          (handlerFor qE gO (selectDatabase parsed.database)) := by
        unfold handlerFor
        split
        · exact hqE
        · exact hgO
      rcases hh : handlerFor qE gO (selectDatabase parsed.database)
          (dispatchSetup cs.prompt (oracle cs.prompt) parsed lff cs).1
          (dispatchSetup cs.prompt (oracle cs.prompt) parsed lff cs).2 with ⟨cs1, exc⟩
      have hpre2 : (dispatchSetup cs.prompt (oracle cs.prompt) parsed lff cs).1.process.steps
          <+: cs1.process.steps := by
        have := hhandler (dispatchSetup cs.prompt (oracle cs.prompt) parsed lff cs).1
          (dispatchSetup cs.prompt (oracle cs.prompt) parsed lff cs).2
        rw [hh] at this
        exact this
      rw [hh] at hok
      rcases exc with _ | e
      · have : res = cs1 := by simpa using hok.symm
        subst this
        exact hpre1.trans hpre2
      · have : res = errorLog (errMsgPreamble ++ e)
            "geneDatabaseCaller.geneDBRetriever".data cs1 := by simpa using hok.symm
        subst this
        refine (hpre1.trans hpre2).trans ?_
        simp [errorLog]
  · intro oracle cs res hok
    simp only [planner] at hok
    rcases hr : response2processes (oracle cs.prompt ++ "\n\n".data) with e | procs
    · rw [hr] at hok
      simp at hok
    · rw [hr] at hok
      dsimp only at hok
      have hres : res
          = { cs with
              planned := procs,
              process :=
                { steps := [], databaseFunction := none,
                  ptype := some "PLANNER".data, stages := some procs } } := by
        simpa using hok.symm
      subst hres
      rfl

/-- C9 witness: a concrete dispatcher turn with non-mutating
collaborators extends the (empty) initial steps log. -/
theorem process_log_append_only_witness :
    geneDBRetriever wOracle wOk wOk wLoader wState = Except.ok wResult
    ∧ wState.process.steps <+: wResult.process.steps :=
  ⟨by decide,
   process_log_append_only.1 wOracle wOk wOk wLoader wState wResult
     (fun _ _ => List.prefix_refl _) (fun _ _ => List.prefix_refl _)
     (fun _ => List.prefix_refl _) (by decide)⟩


/-- Removal only: every character of a `replaceAll` output came from the
input. -/
theorem mem_replaceAllGo (pat : Chars) (c : Char) (k : Nat) (s : Chars)
    (h : c ∈ replaceAllGo pat k s) : c ∈ s := by
  induction s generalizing k with
  | nil => simp [replaceAllGo] at h
  | cons a rest ih =>
    match k with
    | k' + 1 =>
      simp only [replaceAllGo] at h
      exact List.mem_cons_of_mem a (ih k' h)
    | 0 =>
      simp only [replaceAllGo] at h
      split at h
      · exact List.mem_cons_of_mem a (ih (pat.length - 1) h)
      · rcases List.mem_cons.mp h with rfl | h'
        · exact List.mem_cons_self _ _
        · exact List.mem_cons_of_mem a (ih 0 h')

/-- Removing a single-character pattern removes every occurrence of that
character. -/
theorem not_mem_replaceAll_singleton (q : Char) (k : Nat) (s : Chars) :
    q ∉ replaceAllGo [q] k s := by
  induction s generalizing k with
  | nil => simp [replaceAllGo]
  | cons a rest ih =>
    match k with
    | k' + 1 =>
      simp only [replaceAllGo]
      exact ih k'
    | 0 =>
      simp only [replaceAllGo]
      split
      · exact ih ([q].length - 1)
      · next hcond =>
        intro hmem
        rcases List.mem_cons.mp hmem with rfl | h'
        · refine hcond ⟨by simp, ?_⟩
          simp [List.isPrefixOf]
        · exact ih 0 h'

/-- Stripping only drops characters. -/
theorem mem_stripChars (c : Char) (s : Chars) (h : c ∈ stripChars s) : c ∈ s := by
  unfold stripChars at h
  rw [List.mem_reverse] at h
  have h1 := List.Sublist.mem h (List.dropWhile_sublist _)
  rw [List.mem_reverse] at h1
  exact List.Sublist.mem h1 (List.dropWhile_sublist _)

/-- A single-character split never returns an empty list of pieces. -/
theorem pySplitChar_ne_nil (sep : Char) (s : Chars) : pySplitChar sep s ≠ [] := by
  induction s with
  | nil => simp [pySplitChar]
  | cons c rest ih =>
    simp only [pySplitChar]
    split
    · simp
    · split <;> simp

/-- Every character of a split piece came from the split input. -/
theorem mem_pySplitChar (sep : Char) (s l : Chars) (c : Char)
    (hl : l ∈ pySplitChar sep s) (hc : c ∈ l) : c ∈ s := by
  induction s generalizing l with
  | nil =>
    simp only [pySplitChar, List.mem_singleton] at hl
    subst hl
    simp at hc
  | cons a rest ih =>
    simp only [pySplitChar] at hl
    split at hl
    · rcases List.mem_cons.mp hl with rfl | h'
      · simp at hc
      · exact List.mem_cons_of_mem a (ih l h' hc)
    · rcases hgo : pySplitChar sep rest with _ | ⟨h0, t⟩
      · exact absurd hgo (pySplitChar_ne_nil sep rest)
      · rw [hgo] at hl
        rcases List.mem_cons.mp hl with rfl | h'
        · rcases List.mem_cons.mp hc with rfl | h''
          · exact List.mem_cons_self _ _
          · refine List.mem_cons_of_mem a (ih h0 ?_ h'')
            rw [hgo]
            exact List.mem_cons_self _ _
        · refine List.mem_cons_of_mem a (ih l ?_ hc)
          rw [hgo]
          exact List.mem_cons_of_mem h0 h'

/-- After the two quote-removal passes of the parser no single or double
quote remains. -/
theorem quote_free_chain (response : Chars) (c : Char)
    (h : c ∈ replaceAll ['"'] (replaceAll ['\''] response)) :
    c ≠ '\'' ∧ c ≠ '"' := by
  constructor
  · intro rfl1
    subst rfl1
    exact not_mem_replaceAll_singleton '\'' 0 response (mem_replaceAllGo _ _ _ _ h)
  · intro rfl1
    subst rfl1
    exact not_mem_replaceAll_singleton '"' 0 (replaceAll ['\''] response) h

/-- C10: every field of a successful parse is free of single- and
double-quote characters: quote stripping is applied to the whole response
before any splitting, so quotes are removed even from inside the database
name, the individual gene entries, and the load flag. -/
theorem parse_output_quote_free (response : Chars) (d : ParsedRoute)
    (h : parse_llm_response response = Except.ok d) :
    (∀ c ∈ d.database, c ≠ '\'' ∧ c ≠ '"')
    ∧ (∀ g ∈ d.genes, ∀ c ∈ g, c ≠ '\'' ∧ c ≠ '"')
    ∧ (∀ c ∈ d.load, c ≠ '\'' ∧ c ≠ '"') := by
  simp only [parse_llm_response] at h
  rcases h0 : (pySplitChar '\n'
      (stripChars (replaceAll ['"'] (replaceAll ['\''] response))))[0]? with _ | line0
  · rw [h0] at h; simp at h
  · rw [h0] at h
    rcases h1 : (pySplitChar '\n'
        (stripChars (replaceAll ['"'] (replaceAll ['\''] response))))[1]? with _ | line1
    · rw [h1] at h; simp at h
    · rw [h1] at h
      rcases h2 : (pySplitChar '\n'
          (stripChars (replaceAll ['"'] (replaceAll ['\''] response))))[2]? with _ | line2
      · rw [h2] at h; simp at h
      · rw [h2] at h
        dsimp only at h
        have hd : d = { database := stripChars (replaceAll "database:".data line0),
                        genes := pySplitChar ',' (stripChars (replaceAll "genes:".data line1)),
                        load := (pySplitChar ','
                          (stripChars (replaceAll "load:".data line2))).headD [] } := by
          simpa using h.symm
        subst hd
        have hline : ∀ (i : Nat) (line : Chars),
            (pySplitChar '\n'
              (stripChars (replaceAll ['"'] (replaceAll ['\''] response))))[i]? = some line →
            ∀ c ∈ line, c ≠ '\'' ∧ c ≠ '"' := by
          intro i line hi c hc
          have hmem := List.getElem?_mem hi
          have : c ∈ stripChars (replaceAll ['"'] (replaceAll ['\''] response)) :=
            mem_pySplitChar '\n' _ line c hmem hc
          exact quote_free_chain response c (mem_stripChars c _ this)
        refine ⟨?_, ?_, ?_⟩
        · intro c hc
          exact hline 0 line0 h0 c
            (mem_replaceAllGo _ _ _ _ (mem_stripChars c _ hc))
        · intro g hg c hc
          have : c ∈ stripChars (replaceAll "genes:".data line1) :=
            mem_pySplitChar ',' _ g c hg hc
          exact hline 1 line1 h1 c
            (mem_replaceAllGo _ _ _ _ (mem_stripChars c _ this))
        · intro c hc
          have hload : c ∈ stripChars (replaceAll "load:".data line2) := by
            rcases hsp : pySplitChar ',' (stripChars (replaceAll "load:".data line2))
                with _ | ⟨h0', t⟩
            · exact absurd hsp (pySplitChar_ne_nil ',' _)
            · rw [hsp] at hc
              exact mem_pySplitChar ',' _ h0' c
                (by rw [hsp]; exact List.mem_cons_self _ _) hc
          exact hline 2 line2 h2 c
            (mem_replaceAllGo _ _ _ _ (mem_stripChars c _ hload))

/-- C10 witness: a response with quotes inside its values parses to
quote-free fields. -/
theorem parse_output_quote_free_witness :
    parse_llm_response "database: 'ENRI'CHR\ngenes: \"TP53\",BRCA1\nload: Fa'lse".data
      = Except.ok { database := "ENRICHR".data, genes := ["TP53".data, "BRCA1".data],
                    load := "False".data }
    ∧ ((∀ c ∈ ("ENRICHR".data : Chars), c ≠ '\'' ∧ c ≠ '"')
       ∧ (∀ g ∈ ["TP53".data, "BRCA1".data], ∀ c ∈ g, c ≠ '\'' ∧ c ≠ '"')
       ∧ (∀ c ∈ ("False".data : Chars), c ≠ '\'' ∧ c ≠ '"')) :=
  ⟨by decide,
   parse_output_quote_free "database: 'ENRI'CHR\ngenes: \"TP53\",BRCA1\nload: Fa'lse".data
     { database := "ENRICHR".data, genes := ["TP53".data, "BRCA1".data],
       load := "False".data } (by decide)⟩

-- ### replaceAll lemmas

/-- A positive skip counter consumes that many characters. -/
theorem replaceAllGo_skip (pat : Chars) (k : Nat) (s : Chars) :
    replaceAllGo pat k s = replaceAllGo pat 0 (s.drop k) := by
  induction k generalizing s with
  | zero => rw [List.drop_zero]
  | succ k ih =>
    match s with
    | [] => simp [replaceAllGo]
    | c :: rest =>
      show replaceAllGo pat k rest = _
      rw [ih rest]
      rfl

/-- `str.replace` is the identity when the pattern does not occur. -/
theorem replaceAll_eq_self (pat s : Chars) (h : containsSub pat s = false) :
    replaceAll pat s = s := by
  induction s with
  | nil => rfl
  | cons c rest ih =>
    simp only [containsSub, Bool.or_eq_false_iff] at h
    show replaceAllGo pat 0 (c :: rest) = c :: rest
    simp only [replaceAllGo]
    split
    · next hcond => exact absurd hcond.2 (by simp [h.1])
    · exact congrArg (c :: ·) (ih h.2)

/-- Removing a leading label whose text does not recur leaves the rest. -/
theorem replaceAll_label (pat s : Chars) (hne : pat ≠ [])
    (h : containsSub pat s = false) :
    replaceAll pat (pat ++ s) = s := by
  match pat with
  | [] => exact absurd rfl hne
  | p :: pt =>
    show replaceAllGo (p :: pt) 0 (p :: (pt ++ s)) = s
    simp only [replaceAllGo]
    rw [if_pos ⟨by simp, by rw [List.isPrefixOf_iff_prefix]; exact ⟨s, by simp⟩⟩]
    rw [replaceAllGo_skip]
    simp only [List.length_cons, Nat.add_sub_cancel]
    rw [List.drop_left]
    exact replaceAll_eq_self _ _ h

/-- A single character that is not a member is not a substring. -/
theorem containsSub_singleton_eq_false (q : Char) (s : Chars) (h : q ∉ s) :
    containsSub [q] s = false := by
  induction s with
  | nil => rfl
  | cons c rest ih =>
    simp only [containsSub, Bool.or_eq_false_iff]
    refine ⟨?_, ih (fun hm => h (List.mem_cons_of_mem _ hm))⟩
    simp only [List.isPrefixOf, Bool.and_eq_false_iff]
    left
    rw [beq_eq_false_iff_ne]
    exact fun hqc => h (hqc ▸ List.mem_cons_self _ _)

-- ### strip lemmas

/-- `str.strip` is the identity on a string with non-whitespace ends. -/
theorem stripChars_eq_self (s : Chars)
    (hh : ∀ c, s.head? = some c → pyIsSpace c = false)
    (hl : ∀ c, s.getLast? = some c → pyIsSpace c = false) :
    stripChars s = s := by
  match s with
  | [] => rfl
  | c :: t =>
    have h1 : (c :: t).dropWhile pyIsSpace = c :: t := by
      rw [List.dropWhile_cons, hh c rfl]
      simp
    unfold stripChars
    rw [h1]
    rcases hrev : (c :: t).reverse with _ | ⟨c', r'⟩
    · exact absurd hrev (by simp)
    · have hlast : (c :: t).getLast? = some c' := by
        rw [← List.head?_reverse, hrev]
        rfl
      have h2 : pyIsSpace c' = false := hl c' hlast
      rw [List.dropWhile_cons, h2]
      simp only [Bool.false_eq_true, if_false]
      rw [← hrev, List.reverse_reverse]

/-- A string fixed by `str.strip` does not end in whitespace. -/
theorem getLast_not_space_of_strip (s : Chars) (hs : stripChars s = s) :
    ∀ c, s.getLast? = some c → pyIsSpace c = false := by
  intro c hc
  by_contra hsp
  rw [Bool.not_eq_false] at hsp
  have hlen := congrArg List.length hs
  unfold stripChars at hlen
  rw [List.length_reverse] at hlen
  have l1 : (s.dropWhile pyIsSpace).length ≤ s.length :=
    (List.dropWhile_suffix _).sublist.length_le
  have l2 : ((s.dropWhile pyIsSpace).reverse.dropWhile pyIsSpace).length
      ≤ (s.dropWhile pyIsSpace).reverse.length :=
    (List.dropWhile_suffix _).sublist.length_le
  rw [List.length_reverse] at l2
  have hd1 : s.dropWhile pyIsSpace = s :=
    (List.dropWhile_suffix _).eq_of_length (by omega)
  have hd2 : (s.dropWhile pyIsSpace).reverse.dropWhile pyIsSpace
      = (s.dropWhile pyIsSpace).reverse :=
    (List.dropWhile_suffix _).eq_of_length (by rw [List.length_reverse]; omega)
  rw [hd1] at hd2
  rcases hrev : s.reverse with _ | ⟨c', r'⟩
  · have hnil : s = [] := by simpa using congrArg List.reverse hrev
    subst hnil
    simp at hc
  · have hlast : s.getLast? = some c' := by
      rw [← List.head?_reverse, hrev]
      rfl
    rw [hc] at hlast
    injection hlast with hcc
    subst hcc
    rw [hrev, List.dropWhile_cons, hsp] at hd2
    simp only [if_true] at hd2
    have hlen2 := congrArg List.length hd2
    have l3 : (r'.dropWhile pyIsSpace).length ≤ r'.length :=
      (List.dropWhile_suffix _).sublist.length_le
    simp only [List.length_cons] at hlen2
    omega

/-- A leading blank disappears under `str.strip`. -/
theorem stripChars_cons_space (s : Chars) : stripChars (' ' :: s) = stripChars s := by
  unfold stripChars
  rw [List.dropWhile_cons]
  simp [pyIsSpace]

-- ### split lemmas

/-- Splitting at an explicit separator occurrence after a separator-free
block peels that block off. -/
theorem pySplitChar_append_sep (sep : Char) (a b : Chars) (ha : sep ∉ a) :
    pySplitChar sep (a ++ sep :: b) = a :: pySplitChar sep b := by
  induction a with
  | nil =>
    simp [pySplitChar]
  | cons c a' ih =>
    have hc : ¬(c = sep) := fun h => ha (h ▸ List.mem_cons_self _ _)
    have ih' := ih (fun h => ha (List.mem_cons_of_mem _ h))
    rw [List.cons_append]
    simp only [pySplitChar]
    rw [if_neg hc]
    simp only [ih']

/-- A separator-free string splits into itself. -/
theorem pySplitChar_no_sep (sep : Char) (a : Chars) (ha : sep ∉ a) :
    pySplitChar sep a = [a] := by
  induction a with
  | nil => rfl
  | cons c a' ih =>
    have hc : ¬(c = sep) := fun h => ha (h ▸ List.mem_cons_self _ _)
    have ih' := ih (fun h => ha (List.mem_cons_of_mem _ h))
    simp only [pySplitChar]
    rw [if_neg hc]
    simp only [ih']

-- ### joinComma lemmas

/-- Splitting a comma-join of comma-free entries recovers the entries. -/
theorem pySplitChar_joinComma (genes : List Chars) (hne : genes ≠ [])
    (h : ∀ g ∈ genes, ',' ∉ g) :
    pySplitChar ',' (joinComma genes) = genes := by
  match genes with
  | [] => exact absurd rfl hne
  | [g] =>
    show pySplitChar ',' g = [g]
    exact pySplitChar_no_sep ',' g (h g (List.mem_cons_self _ _))
  | g :: g2 :: gs =>
    show pySplitChar ',' (g ++ ',' :: joinComma (g2 :: gs)) = g :: g2 :: gs
    rw [pySplitChar_append_sep ',' g _ (h g (List.mem_cons_self _ _))]
    rw [pySplitChar_joinComma (g2 :: gs) (by simp)
      (fun g' hg' => h g' (List.mem_cons_of_mem _ hg'))]

/-- A character of a comma-join is a comma or comes from an entry. -/
theorem mem_joinComma (c : Char) (gs : List Chars) (h : c ∈ joinComma gs) :
    c = ',' ∨ ∃ g ∈ gs, c ∈ g := by
  match gs with
  | [] => simp [joinComma] at h
  | [g] => exact Or.inr ⟨g, List.mem_cons_self _ _, h⟩
  | g :: g2 :: rest =>
    rw [show joinComma (g :: g2 :: rest) = g ++ ',' :: joinComma (g2 :: rest) from rfl] at h
    rcases List.mem_append.mp h with h1 | h2
    · exact Or.inr ⟨g, List.mem_cons_self _ _, h1⟩
    · rcases List.mem_cons.mp h2 with rfl | h3
      · exact Or.inl rfl
      · rcases mem_joinComma c (g2 :: rest) h3 with h4 | ⟨g', hg', hcg⟩
        · exact Or.inl h4
        · exact Or.inr ⟨g', List.mem_cons_of_mem _ hg', hcg⟩

-- ### the parse shape helper

/-- The parser result, expressed through the three stripped, de-labeled
lines of the de-quoted response. -/
theorem parse_eq_of_lines (response line0 line1 line2 : Chars) (rest : List Chars)
    (h : pySplitChar '\n' (stripChars (replaceAll ['"'] (replaceAll ['\''] response)))
        = line0 :: line1 :: line2 :: rest) :
    parse_llm_response response = Except.ok
      { database := stripChars (replaceAll "database:".data line0),
        genes := pySplitChar ',' (stripChars (replaceAll "genes:".data line1)),
        load := (pySplitChar ',' (stripChars (replaceAll "load:".data line2))).headD [] } := by
  simp only [parse_llm_response]
  rw [h]
  simp

/-- The last element of an append with a non-empty right part. -/
theorem getLast?_append_of_ne_nil (a b : Chars) (hb : b ≠ []) :
    (a ++ b).getLast? = b.getLast? := by
  rw [List.getLast?_append]
  exact Option.or_of_isSome (List.getLast?_isSome.mpr hb)

/-- C5: for well-formed fields (no quotes, no newlines, stripped, no
embedded label text, comma-free gene entries and load flag), re-joining
`"database: " + database`, `"genes: " + ','.join(genes)` and
`"load: " + load` into a 3-line text and parsing yields exactly those
fields; hence re-parsing the re-join of a parse reproduces the parse
(round trip modulo whitespace). -/
theorem parse_round_trip (database load : Chars) (genes : List Chars)
    (hdbq : ∀ c ∈ database, c ≠ '\'' ∧ c ≠ '"' ∧ c ≠ '\n')
    (hdbl : containsSub "database:".data database = false)
    (hdbs : stripChars database = database)
    (hgne : genes ≠ [])
    (hgq : ∀ g ∈ genes, ∀ c ∈ g, c ≠ '\'' ∧ c ≠ '"' ∧ c ≠ '\n' ∧ c ≠ ',')
    (hgl : containsSub "genes:".data (joinComma genes) = false)
    (hgs : stripChars (joinComma genes) = joinComma genes)
    (hlne : load ≠ [])
    (hlq : ∀ c ∈ load, c ≠ '\'' ∧ c ≠ '"' ∧ c ≠ '\n' ∧ c ≠ ',')
    (hll : containsSub "load:".data load = false)
    (hls : stripChars load = load) :
    parse_llm_response (rejoinResponse database genes load)
      = Except.ok { database := database, genes := genes, load := load } := by
  have hmem : ∀ c ∈ rejoinResponse database genes load,
      c ∈ "database: ".data ∨ c ∈ database ∨ c = '\n' ∨ c ∈ "genes: ".data ∨
        c ∈ joinComma genes ∨ c ∈ "load: ".data ∨ c ∈ load := by
    intro c hc
    simp only [rejoinResponse] at hc
    rcases List.mem_append.mp hc with h1 | h2
    · rcases List.mem_append.mp h1 with h | h
      · exact Or.inl h
      · exact Or.inr (Or.inl h)
    · rcases List.mem_cons.mp h2 with rfl | h3
      · exact Or.inr (Or.inr (Or.inl rfl))
      · rcases List.mem_append.mp h3 with h4 | h5
        · rcases List.mem_append.mp h4 with h | h
          · exact Or.inr (Or.inr (Or.inr (Or.inl h)))
          · exact Or.inr (Or.inr (Or.inr (Or.inr (Or.inl h))))
        · rcases List.mem_cons.mp h5 with rfl | h6
          · exact Or.inr (Or.inr (Or.inl rfl))
          · rcases List.mem_append.mp h6 with h | h
            · exact Or.inr (Or.inr (Or.inr (Or.inr (Or.inr (Or.inl h)))))
            · exact Or.inr (Or.inr (Or.inr (Or.inr (Or.inr (Or.inr h)))))
  have hq1 : '\'' ∉ rejoinResponse database genes load := by
    intro hc
    rcases hmem _ hc with h | h | h | h | h | h | h
    · exact absurd h (by decide)
    · exact (hdbq _ h).1 rfl
    · exact absurd h (by decide)
    · exact absurd h (by decide)
    · rcases mem_joinComma _ _ h with h' | ⟨g, hg, hcg⟩
      · exact absurd h' (by decide)
      · exact (hgq g hg _ hcg).1 rfl
    · exact absurd h (by decide)
    · exact (hlq _ h).1 rfl
  have hq2 : '"' ∉ rejoinResponse database genes load := by
    intro hc
    rcases hmem _ hc with h | h | h | h | h | h | h
    · exact absurd h (by decide)
    · exact (hdbq _ h).2.1 rfl
    · exact absurd h (by decide)
    · exact absurd h (by decide)
    · rcases mem_joinComma _ _ h with h' | ⟨g, hg, hcg⟩
      · exact absurd h' (by decide)
      · exact (hgq g hg _ hcg).2.1 rfl
    · exact absurd h (by decide)
    · exact (hlq _ h).2.1 rfl
  have hrepl : replaceAll ['"'] (replaceAll ['\''] (rejoinResponse database genes load))
      = rejoinResponse database genes load := by
    rw [replaceAll_eq_self _ _ (containsSub_singleton_eq_false _ _ hq1),
        replaceAll_eq_self _ _ (containsSub_singleton_eq_false _ _ hq2)]
  have hle : (rejoinResponse database genes load).getLast? = load.getLast? := by
    show (("database: ".data ++ database)
        ++ '\n' :: (("genes: ".data ++ joinComma genes)
          ++ '\n' :: ("load: ".data ++ load))).getLast? = _
    rw [getLast?_append_of_ne_nil _ _ (by simp)]
    rw [show ('\n' :: (("genes: ".data ++ joinComma genes)
          ++ '\n' :: ("load: ".data ++ load)))
        = ['\n'] ++ (("genes: ".data ++ joinComma genes)
          ++ '\n' :: ("load: ".data ++ load)) from rfl]
    rw [getLast?_append_of_ne_nil _ _ (by simp)]
    rw [getLast?_append_of_ne_nil _ _ (by simp)]
    rw [show ('\n' :: ("load: ".data ++ load))
        = ['\n'] ++ ("load: ".data ++ load) from rfl]
    rw [getLast?_append_of_ne_nil _ _ (by simp)]
    rw [getLast?_append_of_ne_nil _ _ hlne]
  have hstrip : stripChars (rejoinResponse database genes load)
      = rejoinResponse database genes load := by
    apply stripChars_eq_self
    · intro c hc
      rw [show (rejoinResponse database genes load).head? = some 'd' from rfl] at hc
      injection hc with h'
      subst h'
      decide
    · intro c hc
      rw [hle] at hc
      exact getLast_not_space_of_strip load hls c hc
  have hnlA : '\n' ∉ "database: ".data ++ database := by
    intro h
    rcases List.mem_append.mp h with h | h
    · exact absurd h (by decide)
    · exact (hdbq _ h).2.2 rfl
  have hnlB : '\n' ∉ "genes: ".data ++ joinComma genes := by
    intro h
    rcases List.mem_append.mp h with h | h
    · exact absurd h (by decide)
    · rcases mem_joinComma _ _ h with h' | ⟨g, hg, hcg⟩
      · exact absurd h' (by decide)
      · exact (hgq g hg _ hcg).2.2.1 rfl
  have hnlC : '\n' ∉ "load: ".data ++ load := by
    intro h
    rcases List.mem_append.mp h with h | h
    · exact absurd h (by decide)
    · exact (hlq _ h).2.2.1 rfl
  have hlines : pySplitChar '\n' (rejoinResponse database genes load)
      = [("database: ".data ++ database), ("genes: ".data ++ joinComma genes),
         ("load: ".data ++ load)] := by
    show pySplitChar '\n' (("database: ".data ++ database)
        ++ '\n' :: (("genes: ".data ++ joinComma genes)
          ++ '\n' :: ("load: ".data ++ load))) = _
    rw [pySplitChar_append_sep '\n' _ _ hnlA]
    rw [pySplitChar_append_sep '\n' _ _ hnlB]
    rw [pySplitChar_no_sep '\n' _ hnlC]
  rw [parse_eq_of_lines (rejoinResponse database genes load) _ _ _ []
    (by rw [hrepl, hstrip]; exact hlines)]
  have hfield1 : stripChars (replaceAll "database:".data ("database: ".data ++ database))
      = database := by
    rw [show ("database: ".data ++ database) = "database:".data ++ (' ' :: database) from rfl]
    rw [replaceAll_label _ _ (by decide) (by
      simp only [containsSub]
      rw [hdbl]
      simp [List.isPrefixOf])]
    rw [stripChars_cons_space, hdbs]
  have hfield2 : pySplitChar ','
      (stripChars (replaceAll "genes:".data ("genes: ".data ++ joinComma genes))) = genes := by
    rw [show ("genes: ".data ++ joinComma genes)
        = "genes:".data ++ (' ' :: joinComma genes) from rfl]
    rw [replaceAll_label _ _ (by decide) (by
      simp only [containsSub]
      rw [hgl]
      simp [List.isPrefixOf])]
    rw [stripChars_cons_space, hgs]
    exact pySplitChar_joinComma genes hgne (fun g hg hc => (hgq g hg _ hc).2.2.2 rfl)
  have hfield3 : (pySplitChar ','
      (stripChars (replaceAll "load:".data ("load: ".data ++ load)))).headD [] = load := by
    rw [show ("load: ".data ++ load) = "load:".data ++ (' ' :: load) from rfl]
    rw [replaceAll_label _ _ (by decide) (by
      simp only [containsSub]
      rw [hll]
      simp [List.isPrefixOf])]
    rw [stripChars_cons_space, hls]
    rw [pySplitChar_no_sep ',' load (fun hc => (hlq _ hc).2.2.2 rfl)]
    rfl
  rw [hfield1, hfield2, hfield3]

/-- C5 witness: the ENRICHR scenario round-trips. -/
theorem parse_round_trip_witness :
    (∀ c ∈ ("ENRICHR".data : Chars), c ≠ '\'' ∧ c ≠ '"' ∧ c ≠ '\n')
    ∧ containsSub "database:".data "ENRICHR".data = false
    ∧ stripChars "ENRICHR".data = "ENRICHR".data
    ∧ ["TP53".data, "BRCA1".data, "EGFR".data] ≠ ([] : List Chars)
    ∧ (∀ g ∈ ["TP53".data, "BRCA1".data, "EGFR".data], ∀ c ∈ g,
        c ≠ '\'' ∧ c ≠ '"' ∧ c ≠ '\n' ∧ c ≠ ',')
    ∧ containsSub "genes:".data (joinComma ["TP53".data, "BRCA1".data, "EGFR".data]) = false
    ∧ stripChars (joinComma ["TP53".data, "BRCA1".data, "EGFR".data])
        = joinComma ["TP53".data, "BRCA1".data, "EGFR".data]
    ∧ "False".data ≠ ([] : Chars)
    ∧ (∀ c ∈ ("False".data : Chars), c ≠ '\'' ∧ c ≠ '"' ∧ c ≠ '\n' ∧ c ≠ ',')
    ∧ containsSub "load:".data "False".data = false
    ∧ stripChars "False".data = "False".data
    ∧ parse_llm_response (rejoinResponse "ENRICHR".data
        ["TP53".data, "BRCA1".data, "EGFR".data] "False".data)
      = Except.ok { database := "ENRICHR".data,
                    genes := ["TP53".data, "BRCA1".data, "EGFR".data],
                    load := "False".data } :=
  ⟨by decide, by decide, by decide, by decide, by decide, by decide, by decide, by decide,
   by decide, by decide, by decide,
   parse_round_trip "ENRICHR".data "False".data ["TP53".data, "BRCA1".data, "EGFR".data]
     (by decide) (by decide) (by decide) (by decide) (by decide) (by decide) (by decide)
     (by decide) (by decide) (by decide) (by decide)⟩
